import Mathlib

/-!
Verification development for the GATO repository (differentiable event
categorization).  The definitions below are a shallow embedding, over the real
numbers, of:

* `GATO_2D.call` from `src/examples/3D_2signals_softmax_example/2D.py`
  (the second class definition, lines 117-180, which in Python shadows the
  first definition of the same name),
* `assign_bins_and_order` from `src/diffcat_optimizer/plotting_utils.py`,
* the two `compute_significance` helpers from
  `src/examples/toy_example/run_toy_example.py` and
  `src/examples/1D_example/_old_run_toy_example.py`.

`asymptotic_significance`, `soft_bin_weights` and `calculate_boundaries` live
in `diffcat_optimizer/differentiable_categories.py`, which is not part of the
sources; those three are modelled from the spec and are marked as such.
-/

namespace Gato

/-- Logistic sigmoid, `tf.sigmoid` / `scipy.special.expit`. -/
noncomputable def sigmoidR (x : ℝ) : ℝ := 1 / (1 + Real.exp (-x))

/-- Softmax over a finite index type (`tf.nn.softmax` along the component axis). -/
noncomputable def softmaxFin {K : ℕ} (v : Fin K → ℝ) (i : Fin K) : ℝ :=
  Real.exp (v i) / ∑ j, Real.exp (v j)

/-- Log-softmax (`tf.nn.log_softmax`): `v i - log Σ_j exp (v j)`. -/
noncomputable def logSoftmaxFin {K : ℕ} (v : Fin K → ℝ) (i : Fin K) : ℝ :=
  v i - Real.log (∑ j, Real.exp (v j))

/-- Trained parameters of the 2-D Gaussian-mixture model as read by
`GATO_2D.call` (`2D.py`) and `assign_bins_and_order` (`plotting_utils.py`):
mixture logits, raw (pre-activation) component means, the lower-triangular
scale factors returned by `model.get_scale_tril()` — a triple `(a, b, c)`
stands for the matrix `[[a, 0], [b, c]]` — and the softmax temperature.
Both functions read `scale_tril` through the same `get_scale_tril` method, so
its value is taken as the model field here. -/
structure GatoModel (K : ℕ) where
  mixtureLogits : Fin K → ℝ
  means : Fin K → ℝ × ℝ
  scaleTril : Fin K → ℝ × ℝ × ℝ
  temperature : ℝ

/-- Component location in the `reduce` parameterization: append a zero logit to
the raw 2-D mean, softmax over the three logits, keep the first two
coordinates.  This is `2D.py` lines 130-135 and, identically,
`plotting_utils.py` lines 213-217 (the `reduce=True` branch). -/
noncomputable def locRed (m : ℝ × ℝ) : ℝ × ℝ :=
  ((Real.exp m.1) / (Real.exp m.1 + Real.exp m.2 + Real.exp 0),
   (Real.exp m.2) / (Real.exp m.1 + Real.exp m.2 + Real.exp 0))

/-- Component location in the `reduce=False` branch of `assign_bins_and_order`
(`plotting_utils.py` line 219): row-wise softmax of the raw mean. -/
noncomputable def locFull (m : ℝ × ℝ) : ℝ × ℝ :=
  ((Real.exp m.1) / (Real.exp m.1 + Real.exp m.2),
   (Real.exp m.2) / (Real.exp m.1 + Real.exp m.2))

/-- Log-density of `tfd.MultivariateNormalTriL` in dimension 2 with
lower-triangular scale `[[a, 0], [b, c]]`: solve `L z = x - loc` by forward
substitution, then `-‖z‖²/2 - log (2π) - log |a| - log |c|`. -/
noncomputable def mvnLogProb (loc : ℝ × ℝ) (L : ℝ × ℝ × ℝ) (x : ℝ × ℝ) : ℝ :=
  (-((x.1 - loc.1) / L.1) ^ 2 / 2
    - ((x.2 - loc.2 - L.2.1 * ((x.1 - loc.1) / L.1)) / L.2.2) ^ 2 / 2)
    - Real.log (2 * Real.pi) - Real.log |L.1| - Real.log |L.2.2|

/-- `log_mix = tf.nn.log_softmax(self.mixture_logits)`. -/
noncomputable def logMix {K : ℕ} (M : GatoModel K) (k : Fin K) : ℝ :=
  logSoftmaxFin M.mixtureLogits k

/-- Per-event joint score `log p_k(x) + log mix_k`, with the mean activation
selected by the `reduce` flag exactly as in `assign_bins_and_order`.  For
`reduce = true` this is also, verbatim, the softmax argument of `GATO_2D.call`
(`2D.py` lines 157-167) before division by the temperature. -/
noncomputable def logJoint {K : ℕ} (M : GatoModel K) (reduce : Bool) (x : ℝ × ℝ)
    (k : Fin K) : ℝ :=
  mvnLogProb ((if reduce then locRed else locFull) (M.means k)) (M.scaleTril k) x + logMix M k

/-- Soft responsibilities computed by `GATO_2D.call` (`2D.py` line 167):
`gamma = tf.nn.softmax((lp + log_mix) / temperature, axis=1)`. -/
noncomputable def gammaCall {K : ℕ} (M : GatoModel K) (x : ℝ × ℝ) (k : Fin K) : ℝ :=
  softmaxFin (fun j => logJoint M true x j / M.temperature) k

/-- One event: 2-D discriminant value and event weight. -/
abbrev Event : Type := (ℝ × ℝ) × ℝ

/-- A sample dictionary: insertion-ordered association of process name to its
event table (Python dicts iterate in insertion order). -/
abbrev Sample : Type := List (String × List Event)

/-- Per-process soft yield of `GATO_2D.call`:
`y = tf.reduce_sum(gamma * w[:, None], axis=0)`. -/
noncomputable def procSoftYield {K : ℕ} (M : GatoModel K) (evs : List Event)
    (k : Fin K) : ℝ :=
  (evs.map (fun e => gammaCall M e.1 k * e.2)).sum

/-- Per-process soft squared-weight yield of `GATO_2D.call`:
`y_w2 = tf.reduce_sum(gamma * w2[:, None], axis=0)` with `w2 = w ** 2`. -/
noncomputable def procSoftYieldSq {K : ℕ} (M : GatoModel K) (evs : List Event)
    (k : Fin K) : ℝ :=
  (evs.map (fun e => gammaCall M e.1 k * e.2 ^ 2)).sum

/-- Accumulator of the process loop in `GATO_2D.call`:
`sig1_y`, `sig2_y`, `bkg_y`, `bkg_w2`. -/
structure CallAcc (K : ℕ) where
  sig1 : Fin K → ℝ
  sig2 : Fin K → ℝ
  bkg : Fin K → ℝ
  bkgW2 : Fin K → ℝ

/-- One iteration of the process loop of `GATO_2D.call` (`2D.py` lines
152-174): route the per-process yields by exact name match on `"signal1"` and
`"signal2"`, everything else is background. -/
noncomputable def callStep {K : ℕ} (M : GatoModel K) (acc : CallAcc K)
    (p : String × List Event) : CallAcc K :=
  if p.1 == "signal1" then
    { acc with sig1 := fun k => acc.sig1 k + procSoftYield M p.2 k }
  else if p.1 == "signal2" then
    { acc with sig2 := fun k => acc.sig2 k + procSoftYield M p.2 k }
  else
    { acc with bkg := fun k => acc.bkg k + procSoftYield M p.2 k,
               bkgW2 := fun k => acc.bkgW2 k + procSoftYieldSq M p.2 k }

/-- The full process loop of `GATO_2D.call`, starting from all-zero yields. -/
noncomputable def callAccum {K : ℕ} (M : GatoModel K) (data : Sample) : CallAcc K :=
  data.foldl (callStep M) ⟨fun _ => 0, fun _ => 0, fun _ => 0, fun _ => 0⟩

/-- Modelled from the spec: the epsilon floor of `asymptotic_significance`
(spec §4.1, "with `B_i` floored by a small epsilon"); the function itself lives
in `diffcat_optimizer/differentiable_categories.py`, which is not among the
sources. -/
noncomputable def asymEps : ℝ := 1 / 1000000

/-- Modelled from the spec: `asymptotic_significance` from
`diffcat_optimizer/differentiable_categories.py` (not among the sources).
Spec §4.1: the Asimov approximation
`Z = sqrt (2 [(S + B) ln (1 + S / B) - S])` with `B` floored by a small
epsilon. -/
noncomputable def asymptoticSignificance (S B : ℝ) : ℝ :=
  Real.sqrt (2 * ((S + max B asymEps) * Real.log (1 + S / max B asymEps) - S))

/-- Quadrature combination across bins:
`tf.sqrt (tf.reduce_sum (asymptotic_significance (S, B) ** 2))`. -/
noncomputable def quadratureZ {K : ℕ} (S B : Fin K → ℝ) : ℝ :=
  Real.sqrt (∑ k, asymptoticSignificance (S k) (B k) ^ 2)

/-- `GATO_2D.call` (`2D.py` lines 125-180): accumulate soft yields over the
process loop, then
`Z1 = sqrt Σ asymptotic_significance(sig1_y, bkg_y + sig2_y)²`,
`Z2 = sqrt Σ asymptotic_significance(sig2_y, bkg_y + sig1_y)²`,
`loss = -sqrt (Z1 * Z2)`; returns `(loss, bkg_y, bkg_w2)`. -/
noncomputable def gatoCall {K : ℕ} (M : GatoModel K) (data : Sample) :
    ℝ × (Fin K → ℝ) × (Fin K → ℝ) :=
  (-Real.sqrt
      (quadratureZ (callAccum M data).sig1
          (fun k => (callAccum M data).bkg k + (callAccum M data).sig2 k) *
        quadratureZ (callAccum M data).sig2
          (fun k => (callAccum M data).bkg k + (callAccum M data).sig1 k)),
    (callAccum M data).bkg, (callAccum M data).bkgW2)

/-- Claim-side description (for comparison with `gatoCall`): total soft yield
of the processes bearing exactly the given name. -/
noncomputable def namedSoftYield {K : ℕ} (M : GatoModel K) (data : Sample)
    (name : String) (k : Fin K) : ℝ :=
  ((data.filter (fun p => p.1 == name)).map (fun p => procSoftYield M p.2 k)).sum

/-- Claim-side description (for comparison with `gatoCall`): total soft yield
of every process named neither `"signal1"` nor `"signal2"`. -/
noncomputable def restSoftYield {K : ℕ} (M : GatoModel K) (data : Sample)
    (k : Fin K) : ℝ :=
  ((data.filter (fun p => !(p.1 == "signal1") && !(p.1 == "signal2"))).map
      (fun p => procSoftYield M p.2 k)).sum

/-- `compute_significance` from `src/examples/toy_example/run_toy_example.py`
(lines 36-44): `B_vals = h_bkg_list[0].values() + h_bkg_list[1].values() +
h_bkg_list[2].values()` — exactly the first three entries; Python raises
`IndexError` on a shorter list (modelled by `none`) and silently ignores any
further entries.  A histogram is modelled by its per-bin `values()` vector. -/
noncomputable def computeSignificanceToy {m : ℕ} (hsig : Fin m → ℝ)
    (hbkg : List (Fin m → ℝ)) : Option ℝ :=
  match hbkg with
  | b0 :: b1 :: b2 :: _ =>
      some (Real.sqrt (∑ i, asymptoticSignificance (hsig i) (b0 i + b1 i + b2 i) ^ 2))
  | _ => none

/-- `compute_significance` from
`src/examples/1D_example/_old_run_toy_example.py` (lines 36-44):
`B_vals = sum([h_bkg.values() for h_bkg in h_bkg_list])` — the bin-by-bin sum
over the whole list (with additive zero start). -/
noncomputable def computeSignificanceOld {m : ℕ} (hsig : Fin m → ℝ)
    (hbkg : List (Fin m → ℝ)) : ℝ :=
  Real.sqrt (∑ i, asymptoticSignificance (hsig i) ((hbkg.map (fun h => h i)).sum) ^ 2)

/-- `tf.argmax` over the component axis: index of the first occurrence of the
maximal value, realized as a left fold as in the reduction it performs. -/
noncomputable def argmaxFin {K : ℕ} (f : Fin (K + 1) → ℝ) : Fin (K + 1) :=
  (List.finRange (K + 1)).foldl (fun best i => if f best < f i then i else best) 0

/-- Hard bin index of one event in `assign_bins_and_order`
(`plotting_utils.py` line 248): `argmax` of `log_probs + log_mix`. -/
noncomputable def hardIdx {K : ℕ} (M : GatoModel (K + 1)) (reduce : Bool)
    (x : ℝ × ℝ) : Fin (K + 1) :=
  argmaxFin (fun k => logJoint M reduce x k)

/-- Raw (pre-relabelling) hard assignments of one process; an empty event
table yields the empty array, matching the `if df.empty` guard. -/
noncomputable def hardAssignments {K : ℕ} (M : GatoModel (K + 1)) (reduce : Bool)
    (evs : List Event) : List (Fin (K + 1)) :=
  evs.map (fun e => hardIdx M reduce e.1)

/-- Masked per-bin weight sum `weights[assignments == i].sum()` of one process. -/
noncomputable def procHardYield {K : ℕ} (M : GatoModel (K + 1)) (reduce : Bool)
    (evs : List Event) (k : Fin (K + 1)) : ℝ :=
  (evs.map (fun e => if hardIdx M reduce e.1 = k then e.2 else 0)).sum

/-- The yield-accumulation loop of `assign_bins_and_order`
(`plotting_utils.py` lines 222-258): processes whose name starts with
`"signal"` feed `S_yields`, the rest feed `B_yields`.  An empty process is
skipped by the `if df.empty` guard; it would contribute an all-zero vector, so
folding over every process is equivalent. -/
noncomputable def assignYields {K : ℕ} (M : GatoModel (K + 1)) (reduce : Bool)
    (data : Sample) : (Fin (K + 1) → ℝ) × (Fin (K + 1) → ℝ) :=
  data.foldl
    (fun SB p =>
      if p.1.startsWith "signal" then
        (fun k => SB.1 k + procHardYield M reduce p.2 k, SB.2)
      else
        (SB.1, fun k => SB.2 k + procHardYield M reduce p.2 k))
    (fun _ => 0, fun _ => 0)

/-- `significances = S_yields / (np.sqrt(B_yields) + eps)`
(`plotting_utils.py` line 261). -/
noncomputable def significancesOf {K : ℕ} (S B : Fin (K + 1) → ℝ) (eps : ℝ)
    (k : Fin (K + 1)) : ℝ :=
  S k / (Real.sqrt (B k) + eps)

/-- The per-bin significance proxies produced inside `assign_bins_and_order`. -/
noncomputable def assignSigs {K : ℕ} (M : GatoModel (K + 1)) (data : Sample)
    (reduce : Bool) (eps : ℝ) : Fin (K + 1) → ℝ :=
  significancesOf (assignYields M reduce data).1 (assignYields M reduce data).2 eps

/-- `order = np.argsort(significances)` (`plotting_utils.py` line 264):
the original bin indices sorted by ascending significance, modelled as a
stable sort of the index list keyed by the significances. -/
noncomputable def orderOf {K : ℕ} (sigs : Fin (K + 1) → ℝ) : List (Fin (K + 1)) :=
  (List.finRange (K + 1)).mergeSort (fun a b => decide (sigs a ≤ sigs b))

/-- `new_order_mapping = {orig: new for new, orig in enumerate(order)}`
(`plotting_utils.py` line 267), as an association list in iteration order. -/
def newOrderPairs {α : Type} (order : List α) : List (α × ℕ) :=
  order.zip (List.range order.length)

/-- `inv_mapping = {v: k for k, v in new_order_mapping.items()}`
(`plotting_utils.py` line 269), as an association list in iteration order. -/
def invPairs {α : Type} (order : List α) : List (ℕ × α) :=
  (newOrderPairs order).map (fun p => (p.2, p.1))

/-- The raw bin stored at canonical position `i` of the ordering, i.e.
`order[i]`. -/
noncomputable def orderedBin {K : ℕ} (sigs : Fin (K + 1) → ℝ) (i : Fin (K + 1)) :
    Fin (K + 1) :=
  (orderOf sigs).getD i.val 0

/-- The relabelling step
`np.vectorize(lambda i: new_order_mapping[i])(orig_assign)`
(`plotting_utils.py` line 274).  `np.vectorize` determines its output dtype by
calling the function on the first element, so on a size-0 input without
`otypes` it raises
`ValueError: cannot call vectorize on size 0 inputs unless otypes is set`;
modelled by `Except.error`. -/
noncomputable def remapOne {K : ℕ} (order : List (Fin (K + 1)))
    (assign : List (Fin (K + 1))) : Except String (List ℕ) :=
  match assign with
  | [] => Except.error "ValueError: cannot call vectorize on size 0 inputs unless otypes is set"
  | a :: rest => Except.ok ((a :: rest).map (fun i => ((newOrderPairs order).lookup i).getD 0))

/-- The final relabelling loop over `bin_assignments`
(`plotting_utils.py` lines 272-274). -/
noncomputable def remapAll {K : ℕ} (order : List (Fin (K + 1))) :
    List (String × List (Fin (K + 1))) → Except String (List (String × List ℕ))
  | [] => Except.ok []
  | p :: rest => do
      let a ← remapOne order p.2
      let r ← remapAll order rest
      Except.ok ((p.1, a) :: r)

/-- `assign_bins_and_order` (`plotting_utils.py` lines 192-276): hard-assign
every event, accumulate signal/background yields, compute the per-bin
significance proxies, sort, build the mappings, relabel every process's
assignments, and return
`(bin_assignments, order, significances, inv_mapping)`. -/
noncomputable def assignBinsAndOrder {K : ℕ} (M : GatoModel (K + 1)) (data : Sample)
    (reduce : Bool) (eps : ℝ) :
    Except String
      (List (String × List ℕ) × List (Fin (K + 1)) × (Fin (K + 1) → ℝ) ×
        List (ℕ × Fin (K + 1))) :=
  (remapAll (orderOf (assignSigs M data reduce eps))
      (data.map (fun p => (p.1, hardAssignments M reduce p.2)))).map
    (fun remapped =>
      (remapped, orderOf (assignSigs M data reduce eps), assignSigs M data reduce eps,
        invPairs (orderOf (assignSigs M data reduce eps))))

/-- Modelled from the spec: `calculate_boundaries` of
`diffcat_optimizer/differentiable_categories.py` (not among the sources).
Spec §3/§6: effective 1-D boundaries are the sigmoid of the raw boundaries
followed by a stable sort, hence weakly increasing and inside `(0,1)`. -/
noncomputable def calculateEffectiveBoundaries (raw : List ℝ) : List ℝ :=
  (raw.map sigmoidR).mergeSort (fun a b => decide (a ≤ b))

/-- One logistic gate `sigmoid (steepness * (x - t))`. -/
noncomputable def softStep (s x t : ℝ) : ℝ := sigmoidR (s * (x - t))

/-- Interior and last bins of the 1-D soft memberships: consecutive
differences of the gates, closed by the last gate itself. -/
noncomputable def softBinWeightsAux (x s t : ℝ) : List ℝ → List ℝ
  | [] => [softStep s x t]
  | t2 :: rest => (softStep s x t - softStep s x t2) :: softBinWeightsAux x s t2 rest

/-- Modelled from the spec: `soft_bin_weights` of
`diffcat_optimizer/differentiable_categories.py` (not among the sources).
Spec §4.3: the `n_cats` memberships of an event at `x` are consecutive
differences of the single monotone soft step `σ(steepness · (x - t))` across
the ordered thresholds, so they telescope to 1. -/
noncomputable def softBinWeights (x s : ℝ) : List ℝ → List ℝ
  | [] => [1]
  | t :: rest => (1 - softStep s x t) :: softBinWeightsAux x s t rest

/-- A concrete one-component model used for witness instantiations. -/
noncomputable def model0 : GatoModel 1 :=
  ⟨fun _ => 0, fun _ => (0, 0), fun _ => (1, 0, 1), 1⟩

/-- A concrete event used for witness instantiations. -/
noncomputable def event0 : Event := ((0, 0), 1)

/-- A concrete two-process sample used for witness instantiations. -/
noncomputable def sample0 : Sample := [("signal1", [event0]), ("bkg1", [event0])]

/-- A concrete sample whose second process has an empty event table. -/
noncomputable def sampleEmptyProc : Sample := [("signal", [event0]), ("bkg1", [])]

/-- The significance proxies of `model0` on `sample0`. -/
noncomputable def sigs0 : Fin 1 → ℝ := assignSigs model0 sample0 true asymEps

end Gato

namespace Gato

theorem sigmoidR_pos (x : ℝ) : 0 < sigmoidR x := by
  unfold sigmoidR
  positivity

theorem sigmoidR_lt_one (x : ℝ) : sigmoidR x < 1 := by
  unfold sigmoidR
  rw [div_lt_one (by positivity)]
  linarith [Real.exp_pos (-x)]

theorem sigmoidR_mono {x y : ℝ} (h : x ≤ y) : sigmoidR x ≤ sigmoidR y := by
  unfold sigmoidR
  have hexp : Real.exp (-y) ≤ Real.exp (-x) := Real.exp_le_exp.mpr (neg_le_neg h)
  have hy : (0:ℝ) < 1 + Real.exp (-y) := by positivity
  exact one_div_le_one_div_of_le hy (by linarith)

theorem softmaxFin_pos {K : ℕ} (v : Fin (K + 1) → ℝ) (i : Fin (K + 1)) :
    0 < softmaxFin v i := by
  unfold softmaxFin
  exact div_pos (Real.exp_pos _)
    (Finset.sum_pos (fun j _ => Real.exp_pos _) Finset.univ_nonempty)

theorem softmaxFin_sum_one {K : ℕ} (v : Fin (K + 1) → ℝ) :
    ∑ i, softmaxFin v i = 1 := by
  unfold softmaxFin
  rw [← Finset.sum_div]
  exact div_self
    (ne_of_gt (Finset.sum_pos (fun j _ => Real.exp_pos _) Finset.univ_nonempty))

theorem softStep_pos (s x t : ℝ) : 0 < softStep s x t := sigmoidR_pos _

theorem softStep_lt_one (s x t : ℝ) : softStep s x t < 1 := sigmoidR_lt_one _

theorem softStep_anti {s x t t2 : ℝ} (hs : 0 ≤ s) (h : t ≤ t2) :
    softStep s x t2 ≤ softStep s x t := by
  unfold softStep
  exact sigmoidR_mono (by nlinarith)

theorem softBinWeightsAux_sum (x s : ℝ) :
    ∀ (t : ℝ) (ts : List ℝ), (softBinWeightsAux x s t ts).sum = softStep s x t := by
  intro t ts
  induction ts generalizing t with
  | nil => simp [softBinWeightsAux]
  | cons t2 rest ih => simp [softBinWeightsAux, ih t2]

theorem softBinWeights_sum (x s : ℝ) (ts : List ℝ) :
    (softBinWeights x s ts).sum = 1 := by
  cases ts with
  | nil => simp [softBinWeights]
  | cons t rest => simp [softBinWeights, softBinWeightsAux_sum]

theorem softBinWeightsAux_nonneg (x s : ℝ) (hs : 0 ≤ s) :
    ∀ (t : ℝ) (ts : List ℝ), List.Sorted (· ≤ ·) (t :: ts) →
      ∀ w ∈ softBinWeightsAux x s t ts, 0 ≤ w := by
  intro t ts
  induction ts generalizing t with
  | nil =>
    intro _ w hw
    simp only [softBinWeightsAux, List.mem_singleton] at hw
    exact hw ▸ le_of_lt (softStep_pos s x t)
  | cons t2 rest ih =>
    intro hsort w hw
    have h12 : t ≤ t2 := (List.sorted_cons.mp hsort).1 t2 (by simp)
    have htail : List.Sorted (· ≤ ·) (t2 :: rest) := (List.sorted_cons.mp hsort).2
    simp only [softBinWeightsAux, List.mem_cons] at hw
    rcases hw with hw | hw
    · exact hw ▸ sub_nonneg.mpr (softStep_anti hs h12)
    · exact ih t2 htail w hw

theorem softBinWeights_nonneg (x s : ℝ) (hs : 0 ≤ s) (ts : List ℝ)
    (hsort : List.Sorted (· ≤ ·) ts) : ∀ w ∈ softBinWeights x s ts, 0 ≤ w := by
  cases ts with
  | nil =>
    intro w hw
    simp only [softBinWeights, List.mem_singleton] at hw
    simp [hw]
  | cons t rest =>
    intro w hw
    simp only [softBinWeights, List.mem_cons] at hw
    rcases hw with hw | hw
    · exact hw ▸ sub_nonneg.mpr (le_of_lt (softStep_lt_one s x t))
    · exact softBinWeightsAux_nonneg x s hs t rest hsort w hw

theorem mergeSort_sorted_key {α : Type} (key : α → ℝ) (l : List α) :
    List.Sorted (fun a b => key a ≤ key b)
      (l.mergeSort (fun a b => decide (key a ≤ key b))) := by
  have h := @List.sorted_mergeSort α (fun a b => decide (key a ≤ key b))
    (fun a b c hab hbc => by
      simp only [decide_eq_true_eq] at hab hbc ⊢
      exact le_trans hab hbc)
    (fun a b => by
      simp only [Bool.or_eq_true, decide_eq_true_eq]
      exact le_total (key a) (key b))
    l
  exact h.imp (fun hab => by simpa using hab)

theorem calculateEffectiveBoundaries_sorted (raw : List ℝ) :
    List.Sorted (· ≤ ·) (calculateEffectiveBoundaries raw) := by
  have h := mergeSort_sorted_key (fun x : ℝ => x) (raw.map sigmoidR)
  simpa [calculateEffectiveBoundaries] using h

theorem orderOf_perm {K : ℕ} (sigs : Fin (K + 1) → ℝ) :
    (orderOf sigs).Perm (List.finRange (K + 1)) :=
  List.mergeSort_perm _ _

theorem orderOf_nodup {K : ℕ} (sigs : Fin (K + 1) → ℝ) : (orderOf sigs).Nodup :=
  ((orderOf_perm sigs).nodup_iff).mpr (List.nodup_finRange _)

theorem orderOf_length {K : ℕ} (sigs : Fin (K + 1) → ℝ) :
    (orderOf sigs).length = K + 1 := by
  simp [orderOf, List.length_mergeSort, List.length_finRange]

theorem orderOf_sorted {K : ℕ} (sigs : Fin (K + 1) → ℝ) :
    List.Sorted (fun a b => sigs a ≤ sigs b) (orderOf sigs) :=
  mergeSort_sorted_key sigs (List.finRange (K + 1))

theorem orderOf_mem {K : ℕ} (sigs : Fin (K + 1) → ℝ) (k : Fin (K + 1)) :
    k ∈ orderOf sigs :=
  ((orderOf_perm sigs).mem_iff).mpr (List.mem_finRange k)

theorem orderedBin_eq_get {K : ℕ} (sigs : Fin (K + 1) → ℝ) (i : Fin (K + 1)) :
    orderedBin sigs i =
      (orderOf sigs).get ⟨i.val, by rw [orderOf_length]; exact i.isLt⟩ :=
  List.getD_eq_get _ _ _

end Gato

namespace Gato

theorem zip_map_swap {α β : Type} (l : List α) (r : List β) :
    (l.zip r).map (fun p => (p.2, p.1)) = r.zip l := by
  induction l generalizing r with
  | nil => simp
  | cons a tl ih =>
    cases r with
    | nil => simp
    | cons b tr => simp [ih]

theorem invPairs_eq_zip {α : Type} (order : List α) :
    invPairs order = (List.range order.length).zip order := by
  unfold invPairs newOrderPairs
  exact zip_map_swap _ _

theorem lookup_zip_range' {α : Type} (l : List α) :
    ∀ (s n : ℕ) (h : n < l.length),
      ((List.range' s l.length).zip l).lookup (s + n) = some (l.get ⟨n, h⟩) := by
  induction l with
  | nil => intro s n h; simp at h
  | cons a tl ih =>
    intro s n h
    cases n with
    | zero =>
      show List.lookup (s + 0) ((s, a) :: (List.range' (s + 1) tl.length).zip tl) = some a
      simp [List.lookup]
    | succ m =>
      have hm : m < tl.length := by simpa using h
      show List.lookup (s + (m + 1)) ((s, a) :: (List.range' (s + 1) tl.length).zip tl) =
        some (tl.get ⟨m, hm⟩)
      have hne : (s + (m + 1) == s) = false := by
        rw [beq_eq_false_iff_ne]; omega
      rw [List.lookup, hne]
      have := ih (s + 1) m hm
      rw [show s + (m + 1) = s + 1 + m by omega]
      simpa using this

theorem lookup_zip_self {α : Type} [BEq α] [LawfulBEq α] (l : List α) :
    ∀ (s n : ℕ) (h : n < l.length), l.Nodup →
      (l.zip (List.range' s l.length)).lookup (l.get ⟨n, h⟩) = some (s + n) := by
  induction l with
  | nil => intro s n h _; simp at h
  | cons a tl ih =>
    intro s n h hnd
    cases n with
    | zero =>
      show List.lookup a ((a, s) :: tl.zip (List.range' (s + 1) tl.length)) = some (s + 0)
      simp [List.lookup]
    | succ m =>
      have hm : m < tl.length := by simpa using h
      show List.lookup (tl.get ⟨m, hm⟩) ((a, s) :: tl.zip (List.range' (s + 1) tl.length)) =
        some (s + (m + 1))
      have hmem : tl.get ⟨m, hm⟩ ∈ tl := List.get_mem _ _ _
      have hne : (tl.get ⟨m, hm⟩ == a) = false := by
        rw [beq_eq_false_iff_ne]
        intro heq
        exact (List.nodup_cons.mp hnd).1 (heq ▸ hmem)
      rw [List.lookup, hne]
      have := ih (s + 1) m hm (List.nodup_cons.mp hnd).2
      rw [show s + (m + 1) = s + 1 + m by omega]
      simpa using this

theorem invPairs_lookup {α : Type} (order : List α) (n : ℕ) (h : n < order.length) :
    (invPairs order).lookup n = some (order.get ⟨n, h⟩) := by
  rw [invPairs_eq_zip, List.range_eq_range']
  have := lookup_zip_range' order 0 n h
  simpa using this

theorem newOrderPairs_lookup {α : Type} [BEq α] [LawfulBEq α] (order : List α)
    (n : ℕ) (h : n < order.length) (hnd : order.Nodup) :
    (newOrderPairs order).lookup (order.get ⟨n, h⟩) = some n := by
  unfold newOrderPairs
  rw [List.range_eq_range']
  have := lookup_zip_self order 0 n h hnd
  simpa using this

end Gato

namespace Gato

/-- Claim C2: for every trained mixture model and sample dictionary, the
`order` array produced by `assign_bins_and_order` is a permutation of the raw
bin indices `{0,…,n_cats-1}`; the inverse mapping satisfies
`inv_mapping[new] = order[new]` for every canonical index `new`; and composing
the canonical-to-raw mapping `new ↦ order[new]` with its inverse
`new_order_mapping` round-trips to the identity on bin labels in both
directions. -/
theorem assign_order_perm_and_inverse {K : ℕ} (M : GatoModel (K + 1))
    (data : Sample) (reduce : Bool) (eps : ℝ) :
    (orderOf (assignSigs M data reduce eps)).Perm (List.finRange (K + 1)) ∧
    (∀ n : Fin (K + 1),
      (invPairs (orderOf (assignSigs M data reduce eps))).lookup n.val =
        some (orderedBin (assignSigs M data reduce eps) n)) ∧
    (∀ n : Fin (K + 1),
      (newOrderPairs (orderOf (assignSigs M data reduce eps))).lookup
          (orderedBin (assignSigs M data reduce eps) n) = some n.val) ∧
    (∀ orig : Fin (K + 1), ∃ n : Fin (K + 1),
      (newOrderPairs (orderOf (assignSigs M data reduce eps))).lookup orig =
          some n.val ∧
        orderedBin (assignSigs M data reduce eps) n = orig) := by
  set sigs := assignSigs M data reduce eps with hsigs
  have hlen := orderOf_length sigs
  refine ⟨orderOf_perm sigs, ?_, ?_, ?_⟩
  · intro n
    have hn : n.val < (orderOf sigs).length := by rw [hlen]; exact n.isLt
    rw [orderedBin_eq_get]
    exact invPairs_lookup _ n.val hn
  · intro n
    rw [orderedBin_eq_get]
    exact newOrderPairs_lookup _ n.val _ (orderOf_nodup sigs)
  · intro orig
    obtain ⟨m, hm⟩ := List.mem_iff_get.mp (orderOf_mem sigs orig)
    refine ⟨⟨m.val, by have := m.isLt; omega⟩, ?_, ?_⟩
    · rw [← hm]
      have := newOrderPairs_lookup (orderOf sigs) m.val m.isLt (orderOf_nodup sigs)
      simpa using this
    · rw [orderedBin_eq_get, ← hm]

end Gato

namespace Gato

/-- Claim C3: after `assign_bins_and_order` relabels the hard assignments,
canonical bin indices are ordered by ascending significance proxy:
`significances[order[i]] ≤ significances[order[j]]` for all canonical
`i ≤ j`; in particular canonical bin 0 carries the minimal and canonical bin
`n_cats - 1` the maximal per-bin `S/sqrt(B)` proxy. -/
theorem assign_order_ascending {K : ℕ} (M : GatoModel (K + 1)) (data : Sample)
    (reduce : Bool) (eps : ℝ) :
    (∀ i j : Fin (K + 1), i ≤ j →
      assignSigs M data reduce eps (orderedBin (assignSigs M data reduce eps) i) ≤
        assignSigs M data reduce eps (orderedBin (assignSigs M data reduce eps) j)) ∧
    (∀ k : Fin (K + 1),
      assignSigs M data reduce eps (orderedBin (assignSigs M data reduce eps) 0) ≤
          assignSigs M data reduce eps k ∧
        assignSigs M data reduce eps k ≤
          assignSigs M data reduce eps
            (orderedBin (assignSigs M data reduce eps) (Fin.last K))) := by
  set sigs := assignSigs M data reduce eps with hsigs
  have hlen := orderOf_length sigs
  have hpair := List.pairwise_iff_get.mp (orderOf_sorted sigs)
  have key : ∀ i j : Fin (K + 1), i ≤ j →
      sigs (orderedBin sigs i) ≤ sigs (orderedBin sigs j) := by
    intro i j hij
    rcases eq_or_lt_of_le hij with heq | hlt
    · rw [heq]
    · rw [orderedBin_eq_get, orderedBin_eq_get]
      exact hpair ⟨i.val, by omega⟩ ⟨j.val, by omega⟩ hlt
  refine ⟨key, ?_⟩
  intro k
  obtain ⟨m, hm⟩ := List.mem_iff_get.mp (orderOf_mem sigs k)
  have hk : k = orderedBin sigs ⟨m.val, by have := m.isLt; omega⟩ := by
    rw [orderedBin_eq_get, ← hm]
  constructor
  · rw [hk]
    exact key 0 _ (Fin.zero_le _)
  · rw [hk]
    exact key _ (Fin.last K) (Fin.le_last _)

end Gato

namespace Gato

theorem foldl_argmax_congr {K : ℕ} (f g : Fin (K + 1) → ℝ)
    (h : ∀ i j, f i < f j ↔ g i < g j) :
    ∀ (l : List (Fin (K + 1))) (b : Fin (K + 1)),
      l.foldl (fun best i => if f best < f i then i else best) b =
        l.foldl (fun best i => if g best < g i then i else best) b := by
  intro l
  induction l with
  | nil => intro b; rfl
  | cons a tl ih =>
    intro b
    simp only [List.foldl_cons]
    rw [if_congr (h b a) rfl rfl]
    exact ih _

theorem argmaxFin_congr {K : ℕ} (f g : Fin (K + 1) → ℝ)
    (h : ∀ i j, f i < f j ↔ g i < g j) : argmaxFin f = argmaxFin g :=
  foldl_argmax_congr f g h _ _

theorem logJoint_lt_iff_gamma_lt {K : ℕ} (M : GatoModel (K + 1)) (x : ℝ × ℝ)
    (hT : 0 < M.temperature) (i j : Fin (K + 1)) :
    logJoint M true x i < logJoint M true x j ↔
      gammaCall M x i < gammaCall M x j := by
  unfold gammaCall softmaxFin
  rw [div_lt_div_iff_of_pos_right
    (Finset.sum_pos (fun l _ => Real.exp_pos _) Finset.univ_nonempty)]
  rw [Real.exp_lt_exp]
  rw [div_lt_div_iff_of_pos_right hT]

/-- Claim C4: for every event and every temperature strictly greater than 0,
the hard bin index computed by `assign_bins_and_order` (argmax of
log-density plus log mixture weight, `reduce=True`) equals the argmax of the
temperature-scaled soft responsibilities computed by `GATO_2D.call` from the
same trained parameters with the same mean activation: the hard assignment is
the zero-temperature limit of the soft assignment. -/
theorem hard_assignment_is_soft_argmax {K : ℕ} (M : GatoModel (K + 1))
    (x : ℝ × ℝ) (hT : 0 < M.temperature) :
    hardIdx M true x = argmaxFin (fun k => gammaCall M x k) := by
  unfold hardIdx
  exact argmaxFin_congr _ _ (logJoint_lt_iff_gamma_lt M x hT)

/-- Witness for claim C4 at the concrete model `model0` (temperature 1) and
the event `(0, 0)`. -/
theorem hard_assignment_is_soft_argmax_witness :
    (0:ℝ) < model0.temperature ∧
      hardIdx model0 true (0, 0) = argmaxFin (fun k => gammaCall model0 (0, 0) k) :=
  ⟨by norm_num [model0],
   hard_assignment_is_soft_argmax model0 (0, 0) (by norm_num [model0])⟩

/-- Claim C1: for every event and every valid parameter setting, the vector of
`n_cats` soft membership weights produced for that event — the
temperature-scaled softmax responsibilities of `GATO_2D.call` for the mixture
variant, and likewise the 1-D soft interval memberships — has all entries
non-negative and sums to 1 (exactly, in the real-number model, hence within
any floating-point tolerance such as `1e-6`). -/
theorem soft_membership_partition_of_unity {K : ℕ} (M : GatoModel (K + 1))
    (x : ℝ × ℝ) (hT : 0 < M.temperature) (x1 s : ℝ) (raw : List ℝ)
    (hs : 0 ≤ s) :
    ((∀ k, 0 ≤ gammaCall M x k) ∧ ∑ k, gammaCall M x k = 1) ∧
    ((∀ w ∈ softBinWeights x1 s (calculateEffectiveBoundaries raw), 0 ≤ w) ∧
      (softBinWeights x1 s (calculateEffectiveBoundaries raw)).sum = 1) := by
  refine ⟨⟨fun k => le_of_lt (softmaxFin_pos _ k), softmaxFin_sum_one _⟩, ?_, ?_⟩
  · exact softBinWeights_nonneg x1 s hs _ (calculateEffectiveBoundaries_sorted raw)
  · exact softBinWeights_sum x1 s _

/-- Witness for claim C1 at the concrete model `model0`, event `(0, 0)`,
discriminant value 0, steepness 1 and one raw boundary 0. -/
theorem soft_membership_partition_of_unity_witness :
    (0:ℝ) < model0.temperature ∧ (0:ℝ) ≤ 1 ∧
      (((∀ k, 0 ≤ gammaCall model0 (0, 0) k) ∧ ∑ k, gammaCall model0 (0, 0) k = 1) ∧
        ((∀ w ∈ softBinWeights 0 1 (calculateEffectiveBoundaries [0]), 0 ≤ w) ∧
          (softBinWeights 0 1 (calculateEffectiveBoundaries [0])).sum = 1)) :=
  ⟨by norm_num [model0], by norm_num,
   soft_membership_partition_of_unity model0 (0, 0) (by norm_num [model0]) 0 1 [0]
     (by norm_num)⟩

/-- Claim C9: every component responsibility computed by `GATO_2D.call` is
strictly positive (a softmax output is never exactly zero over the reals), so
every bin receives a strictly positive soft yield contribution from every
event with positive weight. -/
theorem gamma_strictly_positive {K : ℕ} (M : GatoModel (K + 1)) (x : ℝ × ℝ)
    (k : Fin (K + 1)) (w : ℝ) (hw : 0 < w) :
    0 < gammaCall M x k ∧ 0 < gammaCall M x k * w :=
  ⟨softmaxFin_pos _ k, mul_pos (softmaxFin_pos _ k) hw⟩

/-- Witness for claim C9 at the concrete model `model0`, event `(0, 0)` and
weight 1. -/
theorem gamma_strictly_positive_witness :
    (0:ℝ) < 1 ∧
      (0 < gammaCall model0 (0, 0) 0 ∧ 0 < gammaCall model0 (0, 0) 0 * 1) :=
  ⟨by norm_num, gamma_strictly_positive model0 (0, 0) 0 1 (by norm_num)⟩

end Gato

namespace Gato

theorem callFold_sig1 {K : ℕ} (M : GatoModel K) (k : Fin K) :
    ∀ (data : Sample) (acc : CallAcc K),
      (data.foldl (callStep M) acc).sig1 k =
        acc.sig1 k + namedSoftYield M data "signal1" k := by
  intro data
  induction data with
  | nil => intro acc; simp [namedSoftYield]
  | cons p tl ih =>
    intro acc
    rw [List.foldl_cons, ih]
    unfold namedSoftYield callStep
    cases h1 : p.1 == "signal1" with
    | false =>
      cases h2 : p.1 == "signal2" with
      | false => simp [h1, h2, List.filter_cons, namedSoftYield]
      | true => simp [h1, h2, List.filter_cons, namedSoftYield]
    | true => simp [h1, List.filter_cons, namedSoftYield]; ring

theorem callFold_sig2 {K : ℕ} (M : GatoModel K) (k : Fin K) :
    ∀ (data : Sample) (acc : CallAcc K),
      (data.foldl (callStep M) acc).sig2 k =
        acc.sig2 k + namedSoftYield M data "signal2" k := by
  intro data
  induction data with
  | nil => intro acc; simp [namedSoftYield]
  | cons p tl ih =>
    intro acc
    rw [List.foldl_cons, ih]
    unfold namedSoftYield callStep
    cases h1 : p.1 == "signal1" with
    | false =>
      cases h2 : p.1 == "signal2" with
      | false => simp [h1, h2, List.filter_cons, namedSoftYield]
      | true =>
        have hne : (p.1 == "signal1") = false := h1
        simp [h1, h2, List.filter_cons, namedSoftYield]; ring
    | true =>
      have : p.1 = "signal1" := by simpa using h1
      have h2 : (p.1 == "signal2") = false := by simp [this]
      simp [h1, h2, List.filter_cons, namedSoftYield]

theorem callFold_bkg {K : ℕ} (M : GatoModel K) (k : Fin K) :
    ∀ (data : Sample) (acc : CallAcc K),
      (data.foldl (callStep M) acc).bkg k =
        acc.bkg k + restSoftYield M data k := by
  intro data
  induction data with
  | nil => intro acc; simp [restSoftYield]
  | cons p tl ih =>
    intro acc
    rw [List.foldl_cons, ih]
    unfold restSoftYield callStep
    cases h1 : p.1 == "signal1" with
    | false =>
      cases h2 : p.1 == "signal2" with
      | false => simp [h1, h2, List.filter_cons, restSoftYield]; ring
      | true => simp [h1, h2, List.filter_cons, restSoftYield]
    | true => simp [h1, List.filter_cons, restSoftYield]

theorem callAccum_sig1 {K : ℕ} (M : GatoModel K) (data : Sample) :
    (callAccum M data).sig1 = namedSoftYield M data "signal1" := by
  funext k
  unfold callAccum
  rw [callFold_sig1]
  simp

theorem callAccum_sig2 {K : ℕ} (M : GatoModel K) (data : Sample) :
    (callAccum M data).sig2 = namedSoftYield M data "signal2" := by
  funext k
  unfold callAccum
  rw [callFold_sig2]
  simp

theorem callAccum_bkg {K : ℕ} (M : GatoModel K) (data : Sample) :
    (callAccum M data).bkg = restSoftYield M data := by
  funext k
  unfold callAccum
  rw [callFold_bkg]
  simp

/-- Claim C5: when the sample dictionary contains the two signal processes
named "signal1" and "signal2", `GATO_2D.call` returns as loss the negative
geometric mean `-sqrt (Z1 * Z2)`, where `Z1` is the quadrature-combined
per-bin asymptotic significance of signal1 computed with signal2's yields
added to the background, and `Z2` the same with the two roles exchanged. -/
theorem two_signal_geometric_mean_loss {K : ℕ} (M : GatoModel K) (data : Sample) :
    (gatoCall M data).1 =
      -Real.sqrt
        (quadratureZ (namedSoftYield M data "signal1")
            (fun k => restSoftYield M data k + namedSoftYield M data "signal2" k) *
          quadratureZ (namedSoftYield M data "signal2")
            (fun k => restSoftYield M data k + namedSoftYield M data "signal1" k)) := by
  unfold gatoCall
  rw [callAccum_sig1, callAccum_sig2, callAccum_bkg]

end Gato

namespace Gato

/-- Claim C8: `assign_bins_and_order` is deterministic and idempotent in its
outputs: a second call on the same trained model and the same sample
dictionary (and epsilon) yields identical bin assignments, identical order,
identical significances and identical inverse mapping.  The embedding is a
pure function of the trained parameters and samples; the source performs no
stochastic or stateful operation between calls. -/
theorem assign_deterministic {K : ℕ} (M M2 : GatoModel (K + 1))
    (data data2 : Sample) (reduce : Bool) (eps eps2 : ℝ)
    (hM : M = M2) (hdata : data = data2) (heps : eps = eps2) :
    assignBinsAndOrder M data reduce eps =
      assignBinsAndOrder M2 data2 reduce eps2 := by
  rw [hM, hdata, heps]

/-- Witness for claim C8: two calls on the concrete `model0` and `sample0`
coincide. -/
theorem assign_deterministic_witness :
    assignBinsAndOrder model0 sample0 true asymEps =
      assignBinsAndOrder model0 sample0 true asymEps :=
  assign_deterministic model0 model0 sample0 sample0 true asymEps asymEps rfl rfl rfl

/-- Claim C7 is refuted by the code: on a sample dictionary containing a
process with an empty event table, `assign_bins_and_order` does not complete.
The `if df.empty` guard stores an empty assignment array for the process, but
the final relabelling loop then calls `np.vectorize` (without `otypes`) on
that size-0 array, which raises `ValueError`.  Here the model is evaluated at
a concrete failing input: `sampleEmptyProc` has one nonempty process
(`"signal"`) and one empty process (`"bkg1"`). -/
theorem assign_empty_process_raises :
    assignBinsAndOrder model0 sampleEmptyProc true asymEps =
      Except.error
        "ValueError: cannot call vectorize on size 0 inputs unless otypes is set" :=
  rfl

end Gato

namespace Gato

theorem asym_nonneg (S B : ℝ) : 0 ≤ asymptoticSignificance S B :=
  Real.sqrt_nonneg _

theorem asym_one_three_ne_four :
    asymptoticSignificance 1 3 ≠ asymptoticSignificance 1 4 := by
  have hmax3 : max (3:ℝ) asymEps = 3 := by
    rw [max_eq_left]; norm_num [asymEps]
  have hmax4 : max (4:ℝ) asymEps = 4 := by
    rw [max_eq_left]; norm_num [asymEps]
  unfold asymptoticSignificance
  rw [hmax3, hmax4]
  rw [show (1:ℝ) + 1/3 = 4/3 from by norm_num,
    show (1:ℝ) + 1/4 = 5/4 from by norm_num,
    show (1:ℝ) + 3 = 4 from by norm_num,
    show (1:ℝ) + 4 = 5 from by norm_num]
  have hlt : 5 * Real.log (5/4 : ℝ) < 4 * Real.log (4/3 : ℝ) := by
    have hpow : ((5:ℝ)/4) ^ (5:ℕ) < ((4:ℝ)/3) ^ (4:ℕ) := by norm_num
    have hlog := Real.log_lt_log (by positivity) hpow
    rw [Real.log_pow, Real.log_pow] at hlog
    push_cast at hlog
    linarith
  have hge : (1:ℝ)/5 ≤ Real.log (5/4 : ℝ) := by
    have h1 : Real.log (4/5 : ℝ) ≤ 4/5 - 1 := Real.log_le_sub_one_of_pos (by norm_num)
    have h2 : Real.log (5/4 : ℝ) = -Real.log (4/5 : ℝ) := by
      rw [show (5/4 : ℝ) = (4/5 : ℝ)⁻¹ from by norm_num, Real.log_inv]
    rw [h2]; linarith
  have h40 : 0 ≤ 2 * (5 * Real.log (5/4 : ℝ) - 1) := by nlinarith
  have hlt2 : 2 * (5 * Real.log (5/4 : ℝ) - 1) < 2 * (4 * Real.log (4/3 : ℝ) - 1) := by
    nlinarith
  exact ne_of_gt (Real.sqrt_lt_sqrt h40 hlt2)

/-- Counterexample to claim C6 as stated: for the `toy_example` version of
`compute_significance` and a background list of four unit histograms over a
single bin, the returned value (which uses only the first three backgrounds,
`B = 3`) differs from the claimed formula built from the bin-by-bin sum of all
background yields (`B = 4`). -/
theorem compute_significance_toy_counterexample :
    computeSignificanceToy (fun _ : Fin 1 => (1:ℝ))
        [fun _ => 1, fun _ => 1, fun _ => 1, fun _ => 1] ≠
      some (Real.sqrt (∑ i : Fin 1,
        asymptoticSignificance ((fun _ : Fin 1 => (1:ℝ)) i)
          ((([fun _ => (1:ℝ), fun _ => 1, fun _ => 1, fun _ => 1] :
              List (Fin 1 → ℝ)).map (fun h => h i)).sum) ^ 2)) := by
  have hL : computeSignificanceToy (fun _ : Fin 1 => (1:ℝ))
      [fun _ => 1, fun _ => 1, fun _ => 1, fun _ => 1] =
        some (asymptoticSignificance 1 3) := by
    show some (Real.sqrt (∑ i : Fin 1,
        asymptoticSignificance 1 ((1:ℝ) + 1 + 1) ^ 2)) = _
    rw [Fin.sum_univ_one, show (1:ℝ) + 1 + 1 = 3 from by norm_num,
      Real.sqrt_sq (asym_nonneg 1 3)]
  have hR : some (Real.sqrt (∑ i : Fin 1,
      asymptoticSignificance ((fun _ : Fin 1 => (1:ℝ)) i)
        ((([fun _ => (1:ℝ), fun _ => 1, fun _ => 1, fun _ => 1] :
            List (Fin 1 → ℝ)).map (fun h => h i)).sum) ^ 2)) =
      some (asymptoticSignificance 1 4) := by
    rw [Fin.sum_univ_one]
    simp only [List.map_cons, List.map_nil, List.sum_cons, List.sum_nil, add_zero]
    rw [show (1:ℝ) + (1 + (1 + 1)) = 4 from by norm_num,
      Real.sqrt_sq (asym_nonneg 1 4)]
  rw [hL, hR]
  intro hc
  exact asym_one_three_ne_four (Option.some.inj hc)

/-- Claim C6 (amended): the `1D_example` version of `compute_significance`
returns, for every background list, the quadrature combination
`sqrt (Σ_bins Z_i²)` of per-bin asymptotic significances computed from the
signal yield and the bin-by-bin sum of all background yields; the
`toy_example` version returns the same value whenever the background list has
exactly three entries (it reads exactly `h_bkg_list[0]`, `[1]`, `[2]`). -/
theorem compute_significance_quadrature :
    (∀ (m : ℕ) (hsig : Fin m → ℝ) (hbkg : List (Fin m → ℝ)),
      computeSignificanceOld hsig hbkg =
        Real.sqrt (∑ i, asymptoticSignificance (hsig i)
          ((hbkg.map (fun h => h i)).sum) ^ 2)) ∧
    (∀ (m : ℕ) (hsig b0 b1 b2 : Fin m → ℝ),
      computeSignificanceToy hsig [b0, b1, b2] =
        some (Real.sqrt (∑ i, asymptoticSignificance (hsig i)
          ((([b0, b1, b2] : List (Fin m → ℝ)).map (fun h => h i)).sum) ^ 2))) := by
  constructor
  · intro m hsig hbkg
    rfl
  · intro m hsig b0 b1 b2
    unfold computeSignificanceToy
    simp only [List.map_cons, List.map_nil, List.sum_cons, List.sum_nil, add_zero,
      add_assoc]

/-- Claim C10: the `toy_example` `compute_significance` agrees with the
`1D_example` version on every background list of exactly three histograms,
ignores any additional backgrounds (it depends only on the first three
entries), and fails (`IndexError`, modelled as `none`) on shorter lists. -/
theorem compute_significance_toy_vs_old :
    (∀ (m : ℕ) (hsig b0 b1 b2 : Fin m → ℝ),
      computeSignificanceToy hsig [b0, b1, b2] =
        some (computeSignificanceOld hsig [b0, b1, b2])) ∧
    (∀ (m : ℕ) (hsig b0 b1 b2 : Fin m → ℝ) (rest : List (Fin m → ℝ)),
      computeSignificanceToy hsig (b0 :: b1 :: b2 :: rest) =
        computeSignificanceToy hsig [b0, b1, b2]) ∧
    (∀ (m : ℕ) (hsig : Fin m → ℝ) (hbkg : List (Fin m → ℝ)),
      hbkg.length < 3 → computeSignificanceToy hsig hbkg = none) := by
  refine ⟨?_, ?_, ?_⟩
  · intro m hsig b0 b1 b2
    unfold computeSignificanceToy computeSignificanceOld
    simp only [List.map_cons, List.map_nil, List.sum_cons, List.sum_nil, add_zero,
      add_assoc]
  · intro m hsig b0 b1 b2 rest
    rfl
  · intro m hsig hbkg h
    match hbkg with
    | [] => rfl
    | [b0] => rfl
    | [b0, b1] => rfl
    | b0 :: b1 :: b2 :: rest =>
      exact absurd h (by simp only [List.length_cons]; omega)

/-- Witness for claim C10 at concrete inputs: a two-element background list
yields `none`. -/
theorem compute_significance_toy_vs_old_witness :
    computeSignificanceToy (fun _ : Fin 1 => (1:ℝ)) [fun _ => 1, fun _ => 1] =
      none :=
  compute_significance_toy_vs_old.2.2 1 (fun _ => 1) [fun _ => 1, fun _ => 1]
    (by simp)

end Gato

namespace Gato

/-- Witness for claim C3 at the concrete `model0` and `sample0`, instantiated
at canonical indices `0 ≤ 0` and at bin `0`. -/
theorem assign_order_ascending_witness :
    (assignSigs model0 sample0 true asymEps
        (orderedBin (assignSigs model0 sample0 true asymEps) 0) ≤
      assignSigs model0 sample0 true asymEps
        (orderedBin (assignSigs model0 sample0 true asymEps) 0)) ∧
    (assignSigs model0 sample0 true asymEps
        (orderedBin (assignSigs model0 sample0 true asymEps) 0) ≤
          assignSigs model0 sample0 true asymEps 0 ∧
      assignSigs model0 sample0 true asymEps 0 ≤
        assignSigs model0 sample0 true asymEps
          (orderedBin (assignSigs model0 sample0 true asymEps) (Fin.last 0))) :=
  ⟨(assign_order_ascending model0 sample0 true asymEps).1 0 0 (le_refl 0),
   (assign_order_ascending model0 sample0 true asymEps).2 0⟩

end Gato
